import Mathlib

/-!
A shallow embedding of the Ajazz Stream Deck protocol driver
(`DeviceAjazz` and its command set), together with theorems checking the
driver's specification against the embedded code.

Conventions:
* Go `uint8` / `byte` values are `Nat`s; wherever Go arithmetic can wrap,
  the reduction `% 256` (or `% 2^32` for `uint32`) is written explicitly.
* Byte buffers are `List Nat`.
* A Go function that can panic at runtime (out-of-bounds slice access)
  is embedded with an `Option` result, `none` marking the panic.
* The target platform is a `Bool` (`onWindows`), standing for
  `runtime.GOOS == "windows"`.
-/

set_option maxRecDepth 8000

/-- The lookup table of `elgato_to_ajazz` (source `elgato_to_ajazz`):
`[]uint8{12, 9, 6, 3, 0, 15, 13, 10, 7, 4, 1, 16, 14, 11, 8, 5, 2, 17}`. -/
def elgatoTable : List Nat :=
  [12, 9, 6, 3, 0, 15, 13, 10, 7, 4, 1, 16, 14, 11, 8, 5, 2, 17]

/-- The lookup table of `ajazz_to_elgato` (source `ajazz_to_elgato`):
`[]uint8{4, 10, 16, 3, 9, 15, 2, 8, 14, 1, 7, 13, 0, 6, 12, 5, 11, 17}`. -/
def ajazzTable : List Nat :=
  [4, 10, 16, 3, 9, 15, 2, 8, 14, 1, 7, 13, 0, 6, 12, 5, 11, 17]

/-- Embeds the source's `elgato_to_ajazz(index, columns uint8) uint8`:
`if index > 17 { return index }` else table lookup at `index` plus 1.
The table access is always in range here: the guard leaves `index ≤ 17`
and the table has 18 entries, so the Go code cannot panic and a total
function is faithful (`getD` is only ever used in range).  `columns` is
accepted and ignored, as in the source. -/
def elgato_to_ajazz (index columns : Nat) : Nat :=
  if index > 17 then index
  else elgatoTable.getD index 0 + 1

/-- Embeds the source's `ajazz_to_elgato(index, columns uint8) uint8`:
`if index > 18 { return index }` else table lookup at `index - 1`, where
`index - 1` is computed on a Go `uint8` and therefore wraps modulo 256
(`(index + 255) % 256`).  For `index = 0` the wrapped position is 255,
out of range for the 18-entry table: the Go code panics there, which the
embedding records as `none`.  `columns` is accepted and ignored. -/
def ajazz_to_elgato (index columns : Nat) : Option Nat :=
  if index > 18 then some index
  else ajazzTable.get? ((index + 255) % 256)

/-- Embeds the source's `cmdWrite(data []byte) error`, returning the single
HID report written.  The Go code reads `data[0]`, which panics on an empty
slice; every caller passes a nonempty chunk, and the unreachable empty case
is embedded as `[]`.  On a non-Windows platform with a leading zero byte the
report is `data` prefixed with a 0x00 report-ID byte in a 513-byte buffer;
otherwise it is `data` in a 512-byte buffer.  In both cases the buffer is
allocated zeroed and `data` copied in from the front (truncating past the
buffer, as Go `copy` does), so the report is the corresponding prefix of
`data` extended with zeros. -/
def cmdWrite (onWindows : Bool) : List Nat → List Nat
  | [] => []
  | b :: rest =>
    if onWindows = false ∧ b = 0 then
      List.take 513 ((0 :: b :: rest) ++ List.replicate 512 0)
    else
      List.take 512 ((b :: rest) ++ List.replicate 512 0)

theorem take_append_replicate (l : List Nat) (n : Nat)
    (h : l.length ≤ n) (h2 : n - l.length ≤ 512) :
    List.take n (l ++ List.replicate 512 0) =
      l ++ List.replicate (n - l.length) 0 := by
  rw [List.take_append_eq_append_take, List.take_of_length_le h,
    List.take_replicate]
  congr 2
  omega

theorem cmdWrite_plain (w : Bool) (b : Nat) (rest : List Nat)
    (hmode : ¬(w = false ∧ b = 0)) (hlen : (b :: rest).length ≤ 512) :
    cmdWrite w (b :: rest) =
      (b :: rest) ++ List.replicate (512 - (b :: rest).length) 0 := by
  rw [cmdWrite, if_neg hmode]
  exact take_append_replicate (b :: rest) 512 hlen (by omega)

theorem cmdWrite_reportId (b : Nat) (rest : List Nat)
    (hb : b = 0) (hlen : (b :: rest).length ≤ 512) :
    cmdWrite false (b :: rest) =
      0 :: ((b :: rest) ++ List.replicate (512 - (b :: rest).length) 0) := by
  rw [cmdWrite, if_pos ⟨rfl, hb⟩]
  have h : (0 :: b :: rest).length ≤ 513 := by
    simp only [List.length_cons] at hlen ⊢
    omega
  have e := take_append_replicate (0 :: b :: rest) 513 h
    (by simp only [List.length_cons] at hlen ⊢; omega)
  have harith : 513 - (0 :: b :: rest).length = 512 - (b :: rest).length := by
    simp only [List.length_cons]
    omega
  rw [e, harith]
  simp only [List.cons_append]

theorem cmdWrite_length (w : Bool) (b : Nat) (rest : List Nat)
    (hlen : (b :: rest).length ≤ 512) :
    (cmdWrite w (b :: rest)).length = 512 ∨
      (cmdWrite w (b :: rest)).length = 513 := by
  by_cases hmode : w = false ∧ b = 0
  · right
    obtain ⟨hw, hb⟩ := hmode
    subst hw
    rw [cmdWrite_reportId b rest hb hlen]
    simp only [List.length_cons, List.length_append, List.length_replicate]
    simp only [List.length_cons] at hlen
    omega
  · left
    rw [cmdWrite_plain w b rest hmode hlen]
    simp only [List.length_cons, List.length_append, List.length_replicate]
    simp only [List.length_cons] at hlen
    omega

-- Sanity: framing of a header-like chunk and of a zero-leading chunk.
example : (cmdWrite true [0x43, 0x52, 0x54]).length = 512 := by decide
example : (cmdWrite false [0, 7]).length = 513 := by decide

/-- C1 counterexample: on the same (non-Windows) platform, a chunk whose
first byte is zero is framed as a 513-byte report-ID report while a chunk
whose first byte is 0x43 is framed as a plain 512-byte report, so the
framing mode is not determined by the platform alone. -/
theorem cmdWrite_framing_content_dependent :
    (cmdWrite false [0]).length = 513 ∧ (cmdWrite false [0x43]).length = 512 := by
  decide

/-- C1 (amended): the framing mode of a chunk depends on the platform and on
the chunk's first byte: on Windows, or whenever the first byte is nonzero,
the chunk is sent as-is zero-padded to exactly 512 bytes; on non-Windows
platforms with a zero first byte, a 0x00 report-ID byte is prepended and
the chunk is zero-padded to 513 bytes. -/
theorem cmdWrite_framing (w : Bool) (b : Nat) (rest : List Nat)
    (hlen : (b :: rest).length ≤ 512) :
    (w = false ∧ b = 0 →
      cmdWrite w (b :: rest) =
          0 :: ((b :: rest) ++ List.replicate (512 - (b :: rest).length) 0) ∧
        (cmdWrite w (b :: rest)).length = 513) ∧
    (¬(w = false ∧ b = 0) →
      cmdWrite w (b :: rest) =
          (b :: rest) ++ List.replicate (512 - (b :: rest).length) 0 ∧
        (cmdWrite w (b :: rest)).length = 512) := by
  constructor
  · rintro ⟨hw, hb⟩
    subst hw
    refine ⟨cmdWrite_reportId b rest hb hlen, ?_⟩
    rw [cmdWrite_reportId b rest hb hlen]
    simp only [List.length_cons, List.length_append, List.length_replicate]
    simp only [List.length_cons] at hlen
    omega
  · intro hmode
    refine ⟨cmdWrite_plain w b rest hmode hlen, ?_⟩
    rw [cmdWrite_plain w b rest hmode hlen]
    simp only [List.length_cons, List.length_append, List.length_replicate]
    simp only [List.length_cons] at hlen
    omega

/-- Witness for `cmdWrite_framing` at a concrete chunk. -/
theorem cmdWrite_framing_witness :
    (false = false ∧ 0 = 0 →
      cmdWrite false [0] =
          0 :: ([0] ++ List.replicate (512 - ([0] : List Nat).length) 0) ∧
        (cmdWrite false [0]).length = 513) ∧
    (¬(false = false ∧ 0 = 0) →
      cmdWrite false [0] =
          [0] ++ List.replicate (512 - ([0] : List Nat).length) 0 ∧
        (cmdWrite false [0]).length = 512) :=
  cmdWrite_framing false 0 [] (by decide)

-- Sanity: concrete mapper values read off the source tables.
example : elgato_to_ajazz 1 6 = 10 := by decide
example : elgato_to_ajazz 0 6 = 13 := by decide
example : ajazz_to_elgato 13 6 = some 0 := by decide
example : ajazz_to_elgato 18 6 = some 17 := by decide

/-- C4 counterexample: at index 18 the round-trip fails: `elgato_to_ajazz 18`
takes the identity branch (its guard is `index > 17`), and `ajazz_to_elgato
18` is the table entry 17, so the composite maps 18 to 17, not to 18; the
same value shows that `ajazz_to_elgato` is not the identity on the ajazz
index 18 (which is greater than 17). -/
theorem mapper_roundtrip_fails_at_18 :
    ajazz_to_elgato (elgato_to_ajazz 18 6) 6 = some 17 ∧
      (some 17 : Option Nat) ≠ some 18 := by
  decide

/-- C4 (amended): for every index in [1,17] (indeed in [0,17]),
`ajazz_to_elgato (elgato_to_ajazz index) = index`; `elgato_to_ajazz` is the
identity for every index above 17 (hence above 18), and `ajazz_to_elgato`
is the identity for every index above 18. -/
theorem mapper_roundtrip (c c' : Nat) :
    (∀ i, i ≤ 17 → ajazz_to_elgato (elgato_to_ajazz i c) c' = some i) ∧
    (∀ i, 17 < i → elgato_to_ajazz i c = i) ∧
    (∀ i, 18 < i → ajazz_to_elgato i c = some i) := by
  refine ⟨?_, ?_, ?_⟩
  · intro i hi
    show ajazz_to_elgato (elgato_to_ajazz i 0) 0 = some i
    interval_cases i <;> decide
  · intro i hi
    rw [elgato_to_ajazz, if_pos hi]
  · intro i hi
    rw [ajazz_to_elgato, if_pos hi]

/-- Witness for `mapper_roundtrip` at concrete indices. -/
theorem mapper_roundtrip_witness :
    ajazz_to_elgato (elgato_to_ajazz 5 0) 0 = some 5 ∧
      elgato_to_ajazz 20 0 = 20 ∧ ajazz_to_elgato 19 0 = some 19 :=
  ⟨(mapper_roundtrip 0 0).1 5 (by decide),
    (mapper_roundtrip 0 0).2.1 20 (by decide),
    (mapper_roundtrip 0 0).2.2 19 (by decide)⟩

/-- C10: evaluating `ajazz_to_elgato` at the failing input 0 (a scan byte of
zero, as the key reader can produce): the Go `uint8` subtraction `index - 1`
wraps to 255, which is out of range for the 18-entry table, so the lookup
panics (`none` in the embedding) instead of being an in-range access.  For
every input in [1,18] the lookup is in range, and above 18 the function is
the identity, so input 0 is the only out-of-bounds input. -/
theorem ajazz_to_elgato_zero_out_of_bounds :
    ajazz_to_elgato 0 0 = none ∧ (0 + 255) % 256 = 255 ∧
      ajazzTable.length = 18 ∧
      ((List.range 19).all
        (fun i => i == 0 || (ajazz_to_elgato i 0).isSome) = true) := by
  decide

/-- Embeds the chunking loop shared by `cmdLogo`, `cmdBatch` and
`cmdBatchRetry`:
`for i := 0; i < size; i += 512 { if i+512 < size { data[i:i+512] } else { data[i:] } }`,
returning the successive windows passed to `cmdWrite`.  The structural fuel
argument only bounds the number of iterations; `chunks` below supplies
`data.length`, which always suffices because every iteration consumes at
least one element (`chunksGo_fuel_irrelevant` shows the fuel does not
matter once sufficient). -/
def chunksGo : Nat → List Nat → List (List Nat)
  | _, [] => []
  | 0, _ :: _ => []
  | fuel + 1, b :: rest =>
    if (b :: rest).length ≤ 512 then [b :: rest]
    else (b :: rest).take 512 :: chunksGo fuel ((b :: rest).drop 512)

/-- The chunk windows of a payload, in order. -/
def chunks (data : List Nat) : List (List Nat) :=
  chunksGo data.length data

theorem chunksGo_fuel_irrelevant :
    ∀ f₁ f₂ (data : List Nat), data.length ≤ f₁ → data.length ≤ f₂ →
      chunksGo f₁ data = chunksGo f₂ data := by
  intro f₁
  induction f₁ with
  | zero =>
    intro f₂ data h1 _
    match data, h1 with
    | [], _ => cases f₂ <;> rfl
  | succ f ih =>
    intro f₂ data h1 h2
    match data with
    | [] => cases f₂ <;> rfl
    | b :: rest =>
      match f₂, h2 with
      | 0, h2 => simp at h2
      | f₂' + 1, h2 =>
        rw [chunksGo, chunksGo]
        by_cases hle : (b :: rest).length ≤ 512
        · rw [if_pos hle, if_pos hle]
        · rw [if_neg hle, if_neg hle]
          have hdrop : ((b :: rest).drop 512).length = rest.length + 1 - 512 := by
            rw [List.length_drop, List.length_cons]
          have hcons1 : rest.length + 1 ≤ f + 1 := by
            simpa using h1
          have hcons2 : rest.length + 1 ≤ f₂' + 1 := by
            simpa using h2
          have h1' : ((b :: rest).drop 512).length ≤ f := by
            rw [hdrop]
            omega
          have h2' : ((b :: rest).drop 512).length ≤ f₂' := by
            rw [hdrop]
            omega
          rw [ih f₂' _ h1' h2']

theorem chunks_small (data : List Nat) (hne : data ≠ [])
    (hle : data.length ≤ 512) : chunks data = [data] := by
  match data with
  | b :: rest =>
    rw [chunks]
    simp only [List.length_cons]
    rw [chunksGo, if_pos hle]

theorem chunks_large (data : List Nat) (hgt : 512 < data.length) :
    chunks data = data.take 512 :: chunks (data.drop 512) := by
  match data with
  | [] => simp at hgt
  | b :: rest =>
    rw [chunks]
    simp only [List.length_cons]
    have hpos : 1 ≤ rest.length + 1 := by omega
    rw [chunksGo, if_neg (by omega)]
    congr 1
    rw [chunks]
    apply chunksGo_fuel_irrelevant
    · rw [List.length_drop]
      simp only [List.length_cons] at hgt ⊢
      omega
    · exact le_rfl

theorem drop512_length (data : List Nat) (hgt : 512 < data.length) :
    (data.drop 512).length = data.length - 512 := by
  rw [List.length_drop]

theorem drop512_ne_nil (data : List Nat) (hgt : 512 < data.length) :
    data.drop 512 ≠ [] := by
  intro h
  have := congrArg List.length h
  rw [List.length_drop] at this
  simp only [List.length_nil] at this
  omega

/-- Every chunk window is nonempty and at most 512 bytes. -/
theorem chunks_mem_length_aux :
    ∀ n (data : List Nat), data.length ≤ n →
      ∀ c ∈ chunks data, c ≠ [] ∧ c.length ≤ 512 := by
  intro n
  induction n with
  | zero =>
    intro data h c hc
    match data, h with
    | [], _ => simp [chunks, chunksGo] at hc
  | succ n ih =>
    intro data h c hc
    match data with
    | [] => simp [chunks, chunksGo] at hc
    | b :: rest =>
      by_cases hle : (b :: rest).length ≤ 512
      · rw [chunks_small _ (by simp) hle] at hc
        simp only [List.mem_singleton] at hc
        subst hc
        exact ⟨by simp, hle⟩
      · push_neg at hle
        rw [chunks_large _ hle] at hc
        rcases List.mem_cons.mp hc with hcc | hcc
        · subst hcc
          have hlt : ((b :: rest).take 512).length = 512 := by
            rw [List.length_take]
            omega
          refine ⟨?_, by omega⟩
          intro hnil
          rw [hnil] at hlt
          simp at hlt
        · refine ih ((b :: rest).drop 512) ?_ c hcc
          rw [drop512_length _ hle]
          simp only [List.length_cons] at h hle ⊢
          omega

theorem chunks_mem_length (data : List Nat) :
    ∀ c ∈ chunks data, c ≠ [] ∧ c.length ≤ 512 :=
  chunks_mem_length_aux data.length data le_rfl

/-- The number of chunk windows of a nonempty payload is the ceiling of
its length divided by 512. -/
theorem chunks_count_aux :
    ∀ n (data : List Nat), data.length ≤ n → data ≠ [] →
      (chunks data).length = (data.length + 511) / 512 := by
  intro n
  induction n with
  | zero =>
    intro data h hne
    match data, h with
    | [], _ => exact absurd rfl hne
  | succ n ih =>
    intro data h hne
    by_cases hle : data.length ≤ 512
    · rw [chunks_small data hne hle]
      have : 0 < data.length := List.length_pos.mpr hne
      simp only [List.length_singleton]
      omega
    · push_neg at hle
      rw [chunks_large data hle]
      have hlen : (data.drop 512).length = data.length - 512 := drop512_length data hle
      rw [List.length_cons, ih _ (by omega) (drop512_ne_nil data hle), hlen]
      omega

theorem chunks_count (data : List Nat) (hne : data ≠ []) :
    (chunks data).length = (data.length + 511) / 512 :=
  chunks_count_aux data.length data le_rfl hne

/-- Every chunk window except the last is exactly 512 bytes. -/
theorem chunks_dropLast_full_aux :
    ∀ n (data : List Nat), data.length ≤ n →
      ∀ c ∈ (chunks data).dropLast, c.length = 512 := by
  intro n
  induction n with
  | zero =>
    intro data h c hc
    match data, h with
    | [], _ => simp [chunks, chunksGo] at hc
  | succ n ih =>
    intro data h c hc
    match data with
    | [] => simp [chunks, chunksGo] at hc
    | b :: rest =>
      by_cases hle : (b :: rest).length ≤ 512
      · rw [chunks_small _ (by simp) hle] at hc
        simp at hc
      · push_neg at hle
        rw [chunks_large _ hle] at hc
        have hdne := drop512_ne_nil _ hle
        have hcne : chunks ((b :: rest).drop 512) ≠ [] := by
          intro hch
          have hcount := chunks_count _ hdne
          rw [hch] at hcount
          simp only [List.length_nil] at hcount
          have : 0 < ((b :: rest).drop 512).length := List.length_pos.mpr hdne
          omega
        rw [List.dropLast_cons_of_ne_nil hcne] at hc
        rcases List.mem_cons.mp hc with hcc | hcc
        · subst hcc
          rw [List.length_take]
          simp only [List.length_cons] at hle ⊢
          omega
        · refine ih ((b :: rest).drop 512) ?_ c hcc
          rw [drop512_length _ hle]
          simp only [List.length_cons] at h hle ⊢
          omega

theorem chunks_dropLast_full (data : List Nat) :
    ∀ c ∈ (chunks data).dropLast, c.length = 512 :=
  chunks_dropLast_full_aux data.length data le_rfl

theorem cmdWrite_shape (w : Bool) (c : List Nat) (hne : c ≠ [])
    (hle : c.length ≤ 512) :
    cmdWrite w c = c ++ List.replicate (512 - c.length) 0 ∨
      cmdWrite w c = 0 :: (c ++ List.replicate (512 - c.length) 0) := by
  match c with
  | b :: rest =>
    by_cases hmode : w = false ∧ b = 0
    · right
      obtain ⟨hw, hb⟩ := hmode
      subst hw
      exact cmdWrite_reportId b rest hb hle
    · left
      exact cmdWrite_plain w b rest hmode hle

/-- C2: a nonempty N-byte payload is transported as exactly `⌈N/512⌉` chunk
writes; every written report is exactly 512 or 513 bytes; every chunk window
except the last carries exactly 512 payload bytes; and every report consists
of its window's bytes (possibly behind a report-ID byte) followed by zero
fill up to the report size, so the final chunk's bytes beyond the actual
data are zeros. -/
theorem chunked_transport_reports (w : Bool) (data : List Nat)
    (hne : data ≠ []) :
    ((chunks data).map (cmdWrite w)).length = (data.length + 511) / 512 ∧
    (∀ r ∈ (chunks data).map (cmdWrite w), r.length = 512 ∨ r.length = 513) ∧
    (∀ c ∈ (chunks data).dropLast, c.length = 512) ∧
    (∀ c ∈ chunks data,
      cmdWrite w c = c ++ List.replicate (512 - c.length) 0 ∨
        cmdWrite w c = 0 :: (c ++ List.replicate (512 - c.length) 0)) := by
  refine ⟨?_, ?_, chunks_dropLast_full data, ?_⟩
  · rw [List.length_map]
    exact chunks_count data hne
  · intro r hr
    rw [List.mem_map] at hr
    obtain ⟨c, hc, rfl⟩ := hr
    obtain ⟨hcne, hcle⟩ := chunks_mem_length data c hc
    match c, hcne with
    | b :: rest, _ => exact cmdWrite_length w b rest hcle
  · intro c hc
    obtain ⟨hcne, hcle⟩ := chunks_mem_length data c hc
    exact cmdWrite_shape w c hcne hcle

/-- Witness for `chunked_transport_reports` on the one-byte payload `[5]`. -/
theorem chunked_transport_reports_witness :
    ((chunks [5]).map (cmdWrite true)).length = (([5] : List Nat).length + 511) / 512 ∧
    (∀ r ∈ (chunks [5]).map (cmdWrite true), r.length = 512 ∨ r.length = 513) ∧
    (∀ c ∈ (chunks [5]).dropLast, c.length = 512) ∧
    (∀ c ∈ chunks [5],
      cmdWrite true c = c ++ List.replicate (512 - c.length) 0 ∨
        cmdWrite true c = 0 :: (c ++ List.replicate (512 - c.length) 0)) :=
  chunked_transport_reports true [5] (by decide)

/-- The big-endian 4-byte encoding written by
`binary.BigEndian.PutUint32(d.cmd[8:], uint32(size))`; the Go `int` to
`uint32` conversion reduces modulo `2^32`. -/
def beUint32 (n : Nat) : List Nat :=
  [n % 2 ^ 32 / 2 ^ 24, n % 2 ^ 32 / 2 ^ 16 % 256,
    n % 2 ^ 32 / 2 ^ 8 % 256, n % 2 ^ 32 % 256]

/-- The 512-byte frame built by `cmdBatchRetry` (and `cmdBatch`) in `d.cmd`:
the zeroed buffer receives the header
`43 52 54 00 00 42 41 54 00 00 0c 48 0d 00 00 00`, then `cmd[12] = target`,
then the big-endian payload size over bytes 8..11 (overwriting the header
constants `0c 48` there). -/
def cmdBatchHeaderFrame (target size : Nat) : List Nat :=
  [0x43, 0x52, 0x54, 0, 0, 0x42, 0x41, 0x54] ++ beUint32 size ++
    [target, 0, 0, 0] ++ List.replicate 496 0

example : (cmdBatchHeaderFrame 13 15552).length = 512 := by decide
example : (cmdBatchHeaderFrame 13 15552).getD 8 0 = 0 := by decide
example : (cmdBatchHeaderFrame 13 15552).getD 10 0 = 0x3c := by decide
example : (cmdBatchHeaderFrame 13 15552).getD 11 0 = 0xc0 := by decide

/-- The sequence of HID reports issued by one successful attempt of the
source's `cmdBatchRetry(index, data, _)`: the batch header frame (with
`target := elgato_to_ajazz(index, columns)` and the payload length), written
through `cmdWrite`, followed by the payload chunks, each through `cmdWrite`. -/
def cmdBatchAttemptReports (onWindows : Bool) (index columns : Nat)
    (data : List Nat) : List (List Nat) :=
  cmdWrite onWindows
      (cmdBatchHeaderFrame (elgato_to_ajazz index columns) data.length) ::
    (chunks data).map (cmdWrite onWindows)

/-- The source's `SetImage(index, img)` up to the image codec: the image is
validated to be exactly `pixels × pixels` (`Dy` checked first, as in the
source), the codec (an external collaborator) turns it into `encoded`, and
the encoded bytes are handed to `cmdBatchRetry(index, encoded, 3)`.  A
validation failure returns the error before any transport write. -/
def SetImage (onWindows : Bool) (pixels columns index dx dy : Nat)
    (encoded : List Nat) : Except String (List (List Nat)) :=
  if dy ≠ pixels ∨ dx ≠ pixels then
    Except.error "supplied image has wrong dimensions"
  else
    Except.ok (cmdBatchAttemptReports onWindows index columns encoded)

/-- C3 counterexample: for `SetImage` at index 0 the header frame's target
byte (offset 12) is `elgato_to_ajazz 0 = 13`, the mapper applied to the
index itself, not `elgato_to_ajazz (0+1) = 10` as the claim states. -/
theorem setImage_target_not_index_plus_one :
    SetImage true 72 6 0 72 72 [1] =
        Except.ok (cmdBatchAttemptReports true 0 6 [1]) ∧
      ((cmdBatchAttemptReports true 0 6 [1]).headD []).getD 12 0 = 13 ∧
      elgato_to_ajazz (0 + 1) 6 = 10 ∧ (13 : Nat) ≠ 10 := by
  refine ⟨rfl, ?_, by decide, by decide⟩
  show (cmdWrite true (cmdBatchHeaderFrame (elgato_to_ajazz 0 6) 1)).getD 12 0 = 13
  decide

theorem cmdBatchHeaderFrame_length (t s : Nat) :
    (cmdBatchHeaderFrame t s).length = 512 := by
  simp [cmdBatchHeaderFrame, beUint32]

/-- The header frame starts with the nonzero magic byte 0x43, so `cmdWrite`
sends it as a plain 512-byte report equal to the frame itself. -/
theorem cmdWrite_headerFrame (w : Bool) (t s : Nat) :
    cmdWrite w (cmdBatchHeaderFrame t s) = cmdBatchHeaderFrame t s := by
  set tl : List Nat :=
    [0x52, 0x54, 0, 0, 0x42, 0x41, 0x54] ++ beUint32 s ++ [t, 0, 0, 0] ++
      List.replicate 496 0 with htl
  have hframe : cmdBatchHeaderFrame t s = 0x43 :: tl := rfl
  have hlen : ((0x43 : Nat) :: tl).length ≤ 512 := by
    rw [← hframe, cmdBatchHeaderFrame_length]
  have h := cmdWrite_plain w 0x43 tl (by simp) hlen
  rw [hframe, h]
  have hl2 : ((0x43 : Nat) :: tl).length = 512 := by
    rw [← hframe, cmdBatchHeaderFrame_length]
  rw [hl2]
  simp

theorem cmdBatchHeaderFrame_getD12 (t s : Nat) :
    (cmdBatchHeaderFrame t s).getD 12 0 = t := rfl

/-- C3 (amended): a successful `SetImage(index, img)` with a correctly sized
image issues exactly one batch-header frame followed by `⌈len/512⌉` payload
chunks, and the header's target byte at offset 12 is the Key Index Mapper
applied to `index` itself (0-based; not to `index + 1`): `SetImage 0`
targets mapped slot `elgato_to_ajazz 0 = 13`. -/
theorem setImage_success_reports (w : Bool) (pixels cols index b : Nat)
    (rest : List Nat) :
    SetImage w pixels cols index pixels pixels (b :: rest) =
        Except.ok (cmdBatchAttemptReports w index cols (b :: rest)) ∧
    (cmdBatchAttemptReports w index cols (b :: rest)).length =
        1 + ((b :: rest).length + 511) / 512 ∧
    ((cmdBatchAttemptReports w index cols (b :: rest)).headD []).getD 12 0 =
        elgato_to_ajazz index cols := by
  refine ⟨by simp [SetImage], ?_, ?_⟩
  · rw [cmdBatchAttemptReports, List.length_cons, List.length_map,
      chunks_count (b :: rest) (by simp)]
    omega
  · rw [cmdBatchAttemptReports, List.headD_cons, cmdWrite_headerFrame,
      cmdBatchHeaderFrame_getD12]

/-- The trace of HID reports written by the source's `cmdLogo(data)`,
paired with its result.  The length guard `len(data) != 854*480*3` returns
the validation error before anything reaches the device (the frame built
into `d.cmd` for the `LOG` header is, in the source, never itself written);
otherwise the payload is streamed through the chunking loop. -/
def cmdLogo (onWindows : Bool) (data : List Nat) :
    List (List Nat) × Option String :=
  if data.length ≠ 854 * 480 * 3 then ([], some "invalid data length")
  else ((chunks data).map (cmdWrite onWindows), none)

/-- Protocol operations at command granularity, for the retry/recovery
model: one (possibly partial) attempt of a batch upload, and one clear-slot
command. -/
inductive Cmd where
  | batchSend : Nat → Nat → Cmd
  | clearSlot : Nat → Cmd
deriving DecidableEq, Repr

/-- The slot byte framed by the source's `cmdClear(target)`:
`if target != 0xff { target = elgato_to_ajazz(target, d.Columns) }`. -/
def clearTarget (target columns : Nat) : Nat :=
  if target ≠ 0xff then elgato_to_ajazz target columns else target

/-- Modelled from the spec: the Retry and Recovery Wrapper (the third-party
retry helper `retry.Do` with `retry.Attempts(attempts)` and a
`retry.OnRetry` hook, which is not part of this repository).  Per the spec,
a failed operation is re-executed up to the bounded attempt count, each
retry attempt is preceded by the recovery hook, and exhausting all attempts
surfaces the last error.  `outcome n` is the result of attempt `n`
(`none` = success), `attempt` the commands one attempt issues, `hook` the
commands of the recovery hook; defined for `attempts ≥ 1` (the source
always passes 3). -/
def retryLoop (outcome : Nat → Option String) (attempt hook : List Cmd) :
    Nat → Nat → List Cmd × Option String
  | _, 0 => ([], none)
  | n, 1 => (attempt, outcome n)
  | n, k + 2 =>
    match outcome n with
    | none => (attempt, none)
    | some _ =>
      let r := retryLoop outcome attempt hook (n + 1) (k + 1)
      (attempt ++ hook ++ r.1, r.2)

/-- The command trace and result of the source's
`cmdBatchRetry(index, data, retryAttempts)`: each attempt computes
`target := elgato_to_ajazz(index, columns)`, sends the batch header and the
payload chunks (`Cmd.batchSend target len` stands for that whole, possibly
partially completed, transmission), and the `OnRetry` hook runs
`cmdClear(index)` — a clear-slot command for the same translated slot —
before the next attempt. -/
def cmdBatchRetryCmds (index columns len : Nat)
    (outcome : Nat → Option String) (attempts : Nat) :
    List Cmd × Option String :=
  retryLoop outcome [Cmd.batchSend (elgato_to_ajazz index columns) len]
    [Cmd.clearSlot (clearTarget index columns)] 0 attempts

/-- The source's `SetImage` at command granularity: dimension validation
(`Dy` first), then `cmdBatchRetry(index, encoded, 3)` on the encoded bytes;
`attempts` is kept as a parameter to show the validation error is
independent of the retry machinery. -/
def SetImageCmds (pixels columns index dx dy encodedLen : Nat)
    (outcome : Nat → Option String) (attempts : Nat) :
    List Cmd × Option String :=
  if dy ≠ pixels ∨ dx ≠ pixels then ([], some "wrong dimensions")
  else cmdBatchRetryCmds index columns encodedLen outcome attempts

/-- C5 (spec-modelled retry semantics): with the attempt budget 3 that
`SetImage` passes, a batch upload is attempted at most 3 times; every
re-attempt is directly preceded by a clear-slot command for the target
index; a success stops the retries; and after three failures the last
error is surfaced to the caller. -/
theorem batch_retry_clears_before_each_retry (index cols len : Nat)
    (outcome : Nat → Option String) :
    (outcome 0 = none →
      cmdBatchRetryCmds index cols len outcome 3 =
        ([Cmd.batchSend (elgato_to_ajazz index cols) len], none)) ∧
    (outcome 0 ≠ none → outcome 1 = none →
      cmdBatchRetryCmds index cols len outcome 3 =
        ([Cmd.batchSend (elgato_to_ajazz index cols) len,
          Cmd.clearSlot (clearTarget index cols),
          Cmd.batchSend (elgato_to_ajazz index cols) len], none)) ∧
    (outcome 0 ≠ none → outcome 1 ≠ none →
      cmdBatchRetryCmds index cols len outcome 3 =
        ([Cmd.batchSend (elgato_to_ajazz index cols) len,
          Cmd.clearSlot (clearTarget index cols),
          Cmd.batchSend (elgato_to_ajazz index cols) len,
          Cmd.clearSlot (clearTarget index cols),
          Cmd.batchSend (elgato_to_ajazz index cols) len], outcome 2)) := by
  refine ⟨?_, ?_, ?_⟩
  · intro h0
    rw [cmdBatchRetryCmds, retryLoop, h0]
  · intro h0 h1
    match ho : outcome 0 with
    | none => exact absurd ho h0
    | some e0 =>
      rw [cmdBatchRetryCmds, retryLoop, ho, retryLoop, h1]
      rfl
  · intro h0 h1
    match ho : outcome 0, ho1 : outcome 1 with
    | none, _ => exact absurd ho h0
    | some e0, none => exact absurd ho1 h1
    | some e0, some e1 =>
      rw [cmdBatchRetryCmds, retryLoop, ho, retryLoop, ho1, retryLoop]
      rfl

/-- Witness for `batch_retry_clears_before_each_retry`: all three attempts
fail, so the trace is send, clear, send, clear, send and the last error is
returned. -/
theorem batch_retry_witness :
    cmdBatchRetryCmds 0 6 100 (fun n => some (toString n)) 3 =
      ([Cmd.batchSend (elgato_to_ajazz 0 6) 100,
        Cmd.clearSlot (clearTarget 0 6),
        Cmd.batchSend (elgato_to_ajazz 0 6) 100,
        Cmd.clearSlot (clearTarget 0 6),
        Cmd.batchSend (elgato_to_ajazz 0 6) 100],
        (fun n => some (toString n)) 2) :=
  (batch_retry_clears_before_each_retry 0 6 100
      (fun n => some (toString n))).2.2 (by simp) (by simp)

/-- C6: a logo payload whose length is not 854×480×3 makes `cmdLogo` return
a validation error with zero HID writes, and an image whose dimensions are
not `pixels × pixels` makes `SetImage` return a validation error with no
report sent; the `SetImage` validation error is independent of the retry
oracle and attempt budget (zero batch attempts occur), so it is never
retried. -/
theorem validation_errors_not_transmitted (w : Bool) (data : List Nat)
    (pixels cols index dx dy encodedLen : Nat)
    (outcome : Nat → Option String) (attempts : Nat)
    (hlogo : data.length ≠ 854 * 480 * 3) (himg : dy ≠ pixels ∨ dx ≠ pixels) :
    cmdLogo w data = ([], some "invalid data length") ∧
    (∀ encoded : List Nat, SetImage w pixels cols index dx dy encoded =
      Except.error "supplied image has wrong dimensions") ∧
    SetImageCmds pixels cols index dx dy encodedLen outcome attempts =
      ([], some "wrong dimensions") := by
  refine ⟨?_, ?_, ?_⟩
  · rw [cmdLogo, if_pos hlogo]
  · intro encoded
    rw [SetImage, if_pos himg]
  · rw [SetImageCmds, if_pos himg]

/-- Witness for `validation_errors_not_transmitted`: an empty logo payload
and a 71×72 image. -/
theorem validation_errors_witness :
    cmdLogo true [] = ([], some "invalid data length") ∧
    (∀ encoded : List Nat, SetImage true 72 6 0 71 72 encoded =
      Except.error "supplied image has wrong dimensions") ∧
    SetImageCmds 72 6 0 71 72 5184 (fun _ => none) 3 =
      ([], some "wrong dimensions") :=
  validation_errors_not_transmitted true [] 72 6 0 71 72 5184
    (fun _ => none) 3 (by decide) (by decide)

/-- The sleep/wake/brightness state of a `DeviceAjazz` session: the stored
brightness, the remembered pre-sleep brightness, the asleep flag, and the
trace of hardware brightness commands issued through
`cmdLightRetry(d.brightness, 3)` (each entry one `SetLight` value).
Timestamps (`lastActionTime`) and the HID handle are not modelled. -/
structure DeviceAjazz where
  brightness : Nat
  preSleepBrightness : Nat
  asleep : Bool
  light : List Nat
deriving DecidableEq, Repr

/-- Embeds the source's `SetBrightness(percent)`: clamp above 100 to 100,
store the clamped value in `d.brightness`, then — if asleep and the clamped
value is positive — store it as the pre-sleep brightness and return without
touching hardware; otherwise issue the hardware `SetLight` command with
`d.brightness`. -/
def SetBrightness (d : DeviceAjazz) (percent : Nat) : DeviceAjazz :=
  let p := min percent 100
  let d1 : DeviceAjazz :=
    { brightness := p, preSleepBrightness := d.preSleepBrightness,
      asleep := d.asleep, light := d.light }
  if d1.asleep = true ∧ p > 0 then
    { brightness := d1.brightness, preSleepBrightness := p,
      asleep := d1.asleep, light := d1.light }
  else
    { brightness := d1.brightness, preSleepBrightness := d1.preSleepBrightness,
      asleep := d1.asleep, light := d1.light ++ [d1.brightness] }

/-- Embeds the source's `Fade(start, end, duration)` as the sequence of
`SetBrightness` calls it performs.  The per-tick values come from
floating-point arithmetic (`float64` step and `uint8(current)` casts) that
is outside the shallow embedding, so the tick values are abstracted as a
parameter `steps`; every theorem below holds for every possible `steps`
list, hence for the one the floating-point loop actually produces. -/
def Fade (d : DeviceAjazz) (steps : List Nat) : DeviceAjazz :=
  steps.foldl SetBrightness d

/-- Embeds the source's `Sleep()`: remember the current brightness as the
pre-sleep brightness, fade down, set the asleep flag, then
`SetBrightness(0)`. -/
def Sleep (d : DeviceAjazz) (fadeSteps : List Nat) : DeviceAjazz :=
  let d1 : DeviceAjazz :=
    { brightness := d.brightness, preSleepBrightness := d.brightness,
      asleep := d.asleep, light := d.light }
  let d2 := Fade d1 fadeSteps
  let d3 : DeviceAjazz :=
    { brightness := d2.brightness, preSleepBrightness := d2.preSleepBrightness,
      asleep := true, light := d2.light }
  SetBrightness d3 0

/-- Embeds the source's `Wake()`: clear the asleep flag, fade up, then
`SetBrightness(d.preSleepBrightness)` (read after the fade, as in the
source). -/
def Wake (d : DeviceAjazz) (fadeSteps : List Nat) : DeviceAjazz :=
  let d1 : DeviceAjazz :=
    { brightness := d.brightness, preSleepBrightness := d.preSleepBrightness,
      asleep := false, light := d.light }
  let d2 := Fade d1 fadeSteps
  SetBrightness d2 d2.preSleepBrightness

theorem SetBrightness_awake_preserves (d : DeviceAjazz) (p : Nat)
    (h : d.asleep = false) :
    (SetBrightness d p).asleep = false ∧
      (SetBrightness d p).preSleepBrightness = d.preSleepBrightness := by
  rw [SetBrightness]
  simp only [h]
  simp

theorem Fade_awake_preserves (steps : List Nat) :
    ∀ d : DeviceAjazz, d.asleep = false →
      (Fade d steps).asleep = false ∧
        (Fade d steps).preSleepBrightness = d.preSleepBrightness := by
  induction steps with
  | nil => intro d h; exact ⟨h, rfl⟩
  | cons s rest ih =>
    intro d h
    have h1 := SetBrightness_awake_preserves d s h
    have h2 := ih (SetBrightness d s) h1.1
    rw [Fade, List.foldl_cons]
    exact ⟨h2.1, h2.2.trans h1.2⟩

theorem SetBrightness_awake_state (d : DeviceAjazz) (p : Nat)
    (h : d.asleep = false) :
    SetBrightness d p =
      ⟨min p 100, d.preSleepBrightness, d.asleep, d.light ++ [min p 100]⟩ := by
  rw [SetBrightness]
  simp only [h]
  simp

theorem SetBrightness_asleep_state (d : DeviceAjazz) (p : Nat)
    (h : d.asleep = true) (hp : 0 < min p 100) :
    SetBrightness d p = ⟨min p 100, min p 100, d.asleep, d.light⟩ := by
  rw [SetBrightness]
  simp only [h]
  rw [if_pos ⟨trivial, hp⟩]

theorem SetBrightness_zero_state (d : DeviceAjazz) :
    SetBrightness d 0 =
      ⟨0, d.preSleepBrightness, d.asleep, d.light ++ [0]⟩ := by
  rw [SetBrightness]
  simp

theorem Sleep_state (d : DeviceAjazz) (s1 : List Nat) (h : d.asleep = false) :
    Sleep d s1 = ⟨0, d.brightness, true,
      (Fade ⟨d.brightness, d.brightness, d.asleep, d.light⟩ s1).light ++ [0]⟩ := by
  have hf := Fade_awake_preserves s1
    ⟨d.brightness, d.brightness, d.asleep, d.light⟩ h
  rw [Sleep]
  rw [SetBrightness_zero_state]
  simp only []
  rw [hf.2]

theorem Wake_state (d : DeviceAjazz) (s2 : List Nat)
    (hb : d.preSleepBrightness ≤ 100) :
    (Wake d s2).brightness = d.preSleepBrightness ∧
      (Wake d s2).asleep = false := by
  have hf := Fade_awake_preserves s2
    ⟨d.brightness, d.preSleepBrightness, false, d.light⟩ rfl
  rw [Wake]
  rw [SetBrightness_awake_state _ _ hf.1]
  simp only []
  rw [hf.2]
  exact ⟨by rw [Nat.min_eq_left hb], hf.1⟩

/-- C7: from an awake state with any (in-range) stored brightness, `Sleep()`
immediately followed by `Wake()` restores the stored brightness to the
pre-sleep value and leaves the device awake — for every pair of fade step
sequences the two fades can produce. -/
theorem sleep_then_wake_restores (b pre : Nat) (light s1 s2 : List Nat)
    (hb : b ≤ 100) :
    (Wake (Sleep ⟨b, pre, false, light⟩ s1) s2).brightness = b ∧
      (Wake (Sleep ⟨b, pre, false, light⟩ s1) s2).asleep = false := by
  rw [Sleep_state ⟨b, pre, false, light⟩ s1 rfl]
  exact Wake_state _ s2 hb

/-- Witness for `sleep_then_wake_restores` at concrete values. -/
theorem sleep_then_wake_restores_witness :
    (Wake (Sleep ⟨55, 3, false, []⟩ [20, 10]) [30, 40]).brightness = 55 ∧
      (Wake (Sleep ⟨55, 3, false, []⟩ [20, 10]) [30, 40]).asleep = false :=
  sleep_then_wake_restores 55 3 [] [20, 10] [30, 40] (by decide)

/-- C8 counterexample: on an asleep device with stored brightness 0, calling
`SetBrightness 50` changes the stored brightness field to 50 (the source
assigns `d.brightness = percent` before checking the asleep flag), so the
call does not update only the remembered pre-sleep brightness. -/
theorem setBrightness_asleep_changes_brightness :
    SetBrightness ⟨0, 0, true, []⟩ 50 = ⟨50, 50, true, []⟩ ∧
      (SetBrightness ⟨0, 0, true, []⟩ 50).brightness ≠
        (⟨0, 0, true, []⟩ : DeviceAjazz).brightness := by
  decide

/-- C8 (amended): for an asleep device and clamped percent > 0,
`SetBrightness` updates the stored brightness and the remembered pre-sleep
brightness to the clamped value and issues no hardware brightness command;
in every other case it updates the stored brightness and issues a `SetLight`
command immediately with the clamped value, leaving the pre-sleep brightness
unchanged. -/
theorem setBrightness_cases (d : DeviceAjazz) (p : Nat) :
    (d.asleep = true → 0 < min p 100 →
      SetBrightness d p = ⟨min p 100, min p 100, d.asleep, d.light⟩) ∧
    (d.asleep = false ∨ min p 100 = 0 →
      SetBrightness d p =
        ⟨min p 100, d.preSleepBrightness, d.asleep, d.light ++ [min p 100]⟩) := by
  constructor
  · intro h hp
    exact SetBrightness_asleep_state d p h hp
  · intro h
    rcases h with h | h
    · exact SetBrightness_awake_state d p h
    · rw [SetBrightness]
      simp only []
      rw [if_neg fun hc => absurd (h ▸ hc.2) (lt_irrefl 0)]

/-- Witness for `setBrightness_cases`, exercising both branches. -/
theorem setBrightness_cases_witness :
    (SetBrightness ⟨0, 0, true, []⟩ 50 = ⟨min 50 100, min 50 100, true, []⟩) ∧
    (SetBrightness ⟨7, 9, false, []⟩ 200 =
      ⟨min 200 100, 9, false, [] ++ [min 200 100]⟩) :=
  ⟨(setBrightness_cases ⟨0, 0, true, []⟩ 50).1 rfl (by decide),
    (setBrightness_cases ⟨7, 9, false, []⟩ 200).2 (Or.inl rfl)⟩

/-- Embeds the index loop of the source's `Clear()`:
`for i := uint8(0); i <= d.Columns*d.Rows; i++ { d.SetImage(i, img) }`,
returning the successive indices passed to `SetImage` (each call receives
the same freshly drawn black `Pixels × Pixels` image).  The structural fuel
bounds the iteration count; `Clear` supplies `bound + 1`, which suffices
whenever the loop terminates. -/
def clearLoopGo : Nat → Nat → Nat → List Nat
  | 0, _, _ => []
  | fuel + 1, bound, i =>
    if i ≤ bound then i :: clearLoopGo fuel bound (i + 1) else []

/-- The indices `Clear()` hands to `SetImage`, with the Go `uint8`
multiplication `d.Columns*d.Rows` reduced modulo 256.  (For
`columns*rows % 256 = 255` the Go loop counter, a `uint8`, can never exceed
the bound and the loop does not terminate; the theorems below therefore
assume the bound is below 255.) -/
def Clear (columns rows : Nat) : List Nat :=
  clearLoopGo (columns * rows % 256 + 1) (columns * rows % 256) 0

theorem clearLoopGo_eq_range' :
    ∀ fuel bound i, bound + 1 - i ≤ fuel →
      clearLoopGo fuel bound i = List.range' i (bound + 1 - i) := by
  intro fuel
  induction fuel with
  | zero =>
    intro bound i h
    have h0 : bound + 1 - i = 0 := by omega
    rw [h0]
    rfl
  | succ f ih =>
    intro bound i h
    rw [clearLoopGo]
    by_cases hle : i ≤ bound
    · rw [if_pos hle, ih bound (i + 1) (by omega)]
      have hsucc : bound + 1 - i = (bound + 1 - (i + 1)) + 1 := by omega
      rw [hsucc, List.range'_succ]
    · rw [if_neg hle]
      have h0 : bound + 1 - i = 0 := by omega
      rw [h0]
      rfl

/-- C9 counterexample: on a 6×3 panel (18 keys), `Clear()` calls `SetImage`
19 times, for the indices 0..18 inclusive — the loop condition is
`i <= Columns*Rows`, so index 18 = `Keys` is also cleared, contrary to the
claimed range 0..`Keys`−1. -/
theorem clear_hits_extra_index :
    (18 : Nat) ∈ Clear 6 3 ∧ (Clear 6 3).length = 19 ∧ (6 * 3 : Nat) = 18 := by
  decide

/-- C9 (amended): `Clear()` calls `SetImage` with the black image exactly
once for each slot index from 0 through `Columns*Rows` inclusive
(`Columns*Rows + 1` calls, one more than the key count), and for no other
index. -/
theorem clear_indices (columns rows : Nat)
    (h : columns * rows % 256 ≠ 255) :
    Clear columns rows = List.range (columns * rows % 256 + 1) ∧
    (∀ i, i ∈ Clear columns rows ↔ i ≤ columns * rows % 256) ∧
    (Clear columns rows).Nodup := by
  have hrange : Clear columns rows = List.range (columns * rows % 256 + 1) := by
    rw [Clear, clearLoopGo_eq_range' _ _ 0 (by omega)]
    rw [Nat.sub_zero, List.range_eq_range']
  refine ⟨hrange, ?_, ?_⟩
  · intro i
    rw [hrange, List.mem_range]
    omega
  · rw [hrange]
    exact List.nodup_range _

/-- Witness for `clear_indices` on the 6×3 panel. -/
theorem clear_indices_witness :
    Clear 6 3 = List.range (6 * 3 % 256 + 1) ∧
    (∀ i, i ∈ Clear 6 3 ↔ i ≤ 6 * 3 % 256) ∧
    (Clear 6 3).Nodup :=
  clear_indices 6 3 (by decide)
